import Mathlib

/-!
Shallow embedding of the blog backend (mongoose course repository).

The repository is a TypeScript/mongoose blog backend: models for `User`,
`Post`, `Comment`, `Category`, plus services (`UserService`, `PostService`,
`BlogService`, `SearchService`, `AnalyticsService`).  This file embeds the
pure content of the operations the claims concern:

* the slug generators (`PostSchema.methods.generateSlug`,
  `BlogService.generateSlugFromTitle`),
* read-time computation (`PostSchema.methods.calculateReadTime`),
* the `PostSchema.pre('save')` hook and `BlogService.publishPost`,
* `PostService.getPostWithComments`,
* `SearchService.searchPosts` / `findAuthorsByName` / `findSimilarPosts` /
  `getPopularPostsThisWeek`,
* `BlogService.addComment`,
* `UserService.createUser`.

Modelling conventions:
* JavaScript strings are `String` / `List Char`; `\s` is modelled by the
  ASCII whitespace characters (space, tab, LF, CR, VT, FF);
  `String.prototype.toLowerCase` is modelled on ASCII letters.
* ObjectIds are `Nat`; dates are `Nat` milliseconds since the epoch.
* A MongoDB collection is a `List` of records; queries are filters over it.
* Fallible operations return `Except`.
-/

/-- ASCII model of the JavaScript regex class `\s` (space, tab, LF, CR, VT, FF). -/
def jsWs (c : Char) : Bool :=
  c = ' ' || c = '\t' || c = '\n' || c = '\r' || c = Char.ofNat 11 || c = Char.ofNat 12

/-- ASCII model of `String.prototype.toLowerCase` on a single character. -/
def jsLower (c : Char) : Char :=
  if 'A' ≤ c ∧ c ≤ 'Z' then Char.ofNat (c.toNat + 32) else c

/-- Characters kept by `generateSlug`: the class `[a-z0-9\s-]`
(everything else is removed by `.replace(/[^a-z0-9\s-]/g, '')`). -/
def isSlugChar (c : Char) : Bool :=
  decide ('a' ≤ c ∧ c ≤ 'z') || decide ('0' ≤ c ∧ c ≤ '9') || jsWs c || decide (c = '-')

/-- Characters kept by `generateSlugFromTitle`: the class `[a-z0-9 -]`
(only the literal space, not all of `\s`, survives in the BlogService copy). -/
def isSlugCharSpace (c : Char) : Bool :=
  decide ('a' ≤ c ∧ c ≤ 'z') || decide ('0' ≤ c ∧ c ≤ '9') || decide (c = ' ') || decide (c = '-')

/-- Model of `.replace(/\s+/g, '-')`: each maximal run of whitespace becomes a
single hyphen. -/
def collapseWs : List Char → List Char
  | [] => []
  | [c] => if jsWs c then ['-'] else [c]
  | a :: b :: cs =>
    if jsWs a then
      (if jsWs b then collapseWs (b :: cs) else '-' :: collapseWs (b :: cs))
    else a :: collapseWs (b :: cs)

/-- Model of `hyphen-run replacement`: each maximal run of hyphens becomes a
single hyphen. -/
def collapseHy : List Char → List Char
  | [] => []
  | [c] => [c]
  | a :: b :: cs =>
    if a = '-' ∧ b = '-' then collapseHy (b :: cs) else a :: collapseHy (b :: cs)

/-- Drop the matching suffix of a list (used to model trimming at the end). -/
def trimEnd (p : Char → Bool) (l : List Char) : List Char :=
  (l.reverse.dropWhile p).reverse

/-- Drop the matching prefix and suffix of a list. -/
def trimBothEnds (p : Char → Bool) (l : List Char) : List Char :=
  trimEnd p (l.dropWhile p)

/-- Embedding of `PostSchema.methods.generateSlug` (src/models/Post.ts):
lowercase, remove every character outside `[a-z0-9\s-]`, replace whitespace
runs by a hyphen, collapse hyphen runs, then `.trim()` — which removes only
whitespace. -/
def generateSlug (title : String) : String :=
  String.mk (trimBothEnds jsWs (collapseHy (collapseWs
    ((title.toList.map jsLower).filter isSlugChar))))

/-- Embedding of `BlogService.generateSlugFromTitle` (src/services/BlogService.ts):
same steps, but the removal class is `[^a-z0-9 -]` (plain space instead of `\s`). -/
def generateSlugFromTitle (title : String) : String :=
  String.mk (trimBothEnds jsWs (collapseHy (collapseWs
    ((title.toList.map jsLower).filter isSlugCharSpace))))

/-- Characters the specification trims at both ends: hyphens and whitespace. -/
def isHyOrWs (c : Char) : Bool :=
  jsWs c || decide (c = '-')

/-- Reference slugification, written from the specification text: lowercase,
remove every character not in `[a-z0-9\s-]`, collapse each run of whitespace to
a single hyphen, collapse each run of hyphens to one, and trim leading and
trailing hyphens and whitespace.  This definition follows the spec words and is
compared against `generateSlug`, which is embedded from the source. -/
def slugifySpec (title : String) : String :=
  String.mk (trimBothEnds isHyOrWs (collapseHy (collapseWs
    ((title.toList.map jsLower).filter isSlugChar))))

/-- Model of `content.split(regex \s+)` from `calculateReadTime`: the list of
segments obtained by splitting at each maximal whitespace run.  As in
JavaScript, a leading or trailing run contributes an empty segment, and the
empty string yields the single segment `[]`. -/
def jsSplitWs : List Char → List (List Char)
  | [] => [[]]
  | [c] => if jsWs c then [[], []] else [[c]]
  | a :: b :: cs =>
    if jsWs a then
      (if jsWs b then jsSplitWs (b :: cs) else [] :: jsSplitWs (b :: cs))
    else
      match jsSplitWs (b :: cs) with
      | [] => [[a]]
      | s :: rest => (a :: s) :: rest

/-- Embedding of `PostSchema.methods.calculateReadTime` (src/models/Post.ts):
`Math.ceil(content.split(regex \s+).length / 200) || 1`. -/
def calculateReadTime (content : String) : Nat :=
  let wordsPerMinute := 200
  let wordCount := (jsSplitWs content.toList).length
  let r := (wordCount + (wordsPerMinute - 1)) / wordsPerMinute
  if r = 0 then 1 else r

/-- Number of whitespace-separated words of a string (the count of maximal
non-whitespace runs).  This is the reference notion of word count used by the
specification formula for readTime, stated independently of the code's
`split`. -/
def specWordCount : List Char → Nat
  | [] => 0
  | [c] => if jsWs c then 0 else 1
  | a :: b :: cs =>
    if jsWs a then specWordCount (b :: cs)
    else if jsWs b then 1 + specWordCount (b :: cs)
    else specWordCount (b :: cs)

/-- Reference readTime from the specification: `max(1, ceil(wordCount / 200))`. -/
def specReadTime (content : String) : Nat :=
  max 1 ((specWordCount content.toList + 199) / 200)

/-- Builds the n-word string `w w ... w` (single spaces, no outer whitespace);
used as a concrete fixture for readTime statements. -/
def mkWords : Nat → String
  | 0 => ""
  | 1 => "w"
  | n + 2 => "w " ++ mkWords (n + 1)

/-- Post status enum (src/types/blog.types.ts). -/
inductive PostStatus
  | draft
  | published
  | archived
deriving DecidableEq, Repr

/-- Post document (src/types/blog.types.ts, `IPost`), with ObjectIds as `Nat`
and dates as `Nat` milliseconds.  `createdAt`/`updatedAt` timestamps are kept
only where a claim needs them. -/
structure PostDoc where
  id : Nat
  title : String
  slug : String
  content : String
  excerpt : String
  author : Nat
  categories : List String
  tags : List String
  featuredImage : Option String
  status : PostStatus
  publishedAt : Option Nat
  readTime : Nat
  views : Nat
  likes : List Nat
deriving DecidableEq, Repr

/-- Model of the tag-stripping regex replace in the pre-save hook
(`.replace` with pattern `(<([^>]+)>)`, global): every substring consisting of
`<`, one or more non-`>` characters, and `>` is removed; scanning is
left-to-right as in JavaScript global replace. -/
def stripTags : List Char → List Char
  | [] => []
  | c :: cs =>
    if c = '<' then
      match h : cs.dropWhile (fun d => d ≠ '>') with
      | [] => c :: stripTags cs
      | _ :: after =>
        if cs.takeWhile (fun d => d ≠ '>') = [] then c :: stripTags cs
        else stripTags after
    else c :: stripTags cs
termination_by l => l.length
decreasing_by
  all_goals simp only [List.length_cons]
  all_goals try omega
  have h1 : (cs.dropWhile (fun d => decide (d ≠ '>'))).length ≤ cs.length :=
    List.Sublist.length_le (List.dropWhile_sublist _)
  rw [h] at h1
  simp only [List.length_cons] at h1
  omega

/-- Excerpt derivation from the pre-save hook: strip HTML tags, take the first
150 characters, trim, and append `...`. -/
def deriveExcerpt (content : String) : String :=
  String.mk (trimBothEnds jsWs ((stripTags content.toList).take 150)) ++ "..."

/-- Embedding of the `PostSchema.pre('save')` middleware (src/models/Post.ts).
The mongoose dirty-tracking results `isModified('content')` and
`isModified('status')` are passed as booleans; `now` is the current time.
JavaScript falsiness of `this.slug`, `this.title`, `this.publishedAt`,
`this.excerpt`, `this.content` is: empty string for the strings, absent value
for `publishedAt`. -/
def preSaveHook (p : PostDoc) (contentModified statusModified : Bool) (now : Nat) : PostDoc :=
  let p1 := if p.slug = "" ∧ p.title ≠ "" then { p with slug := generateSlug p.title } else p
  let p2 := if contentModified then { p1 with readTime := calculateReadTime p1.content } else p1
  let p3 :=
    if statusModified ∧ p2.status = PostStatus.published ∧ p2.publishedAt = none then
      { p2 with publishedAt := some now }
    else p2
  if p3.excerpt = "" ∧ p3.content ≠ "" then
    { p3 with excerpt := deriveExcerpt p3.content }
  else p3

/-- Embedding of `BlogService.publishPost` (src/services/BlogService.ts):
`findByIdAndUpdate` with the literal update document
`{ status: published, publishedAt: new Date() }`.  The update runs no save
middleware and sets both fields unconditionally; a missing post is an error. -/
def publishPost (stored : Option PostDoc) (now : Nat) : Except String PostDoc :=
  match stored with
  | none => .error "Post not found"
  | some p => .ok { p with status := PostStatus.published, publishedAt := some now }

/-- User role enum (src/types/user.types.ts). -/
inductive UserRole
  | user
  | admin
  | moderator
deriving DecidableEq, Repr

/-- User document (src/types/user.types.ts, `IUser`), with the profile reduced
to the avatar field, which is the only profile field the embedded operations
project. -/
structure UserDoc where
  id : Nat
  email : String
  username : String
  password : String
  firstName : String
  lastName : String
  age : Option Int
  roles : List UserRole
  avatar : Option String
  isActive : Bool
deriving DecidableEq, Repr

/-- Comment document (src/types/blog.types.ts, `IComment`). -/
structure CommentDoc where
  id : Nat
  post : Nat
  author : Nat
  content : String
  parentComment : Option Nat
  isApproved : Bool
  likes : Nat
  createdAt : Nat
deriving DecidableEq, Repr

/-- Sort key for a MongoDB date sort over `publishedAt`: a missing value sorts
before every date, so descending order puts it last; encoding `none` as `0`
and `some t` as `t + 1` reproduces that order. -/
def pubSortKey (p : PostDoc) : Nat :=
  match p.publishedAt with
  | none => 0
  | some t => t + 1

/-- Model of a MongoDB descending sort on a numeric key. -/
def sortByKeyDesc (key : α → Nat) (l : List α) : List α :=
  List.insertionSort (fun u v => key v ≤ key u) l

/-- Model of a MongoDB ascending sort on a numeric key. -/
def sortByKeyAsc (key : α → Nat) (l : List α) : List α :=
  List.insertionSort (fun u v => key u ≤ key v) l

/-- Projection of a comment author by `.populate('author', 'username profile.avatar')`. -/
structure CommentAuthorView where
  username : String
  avatar : Option String
deriving DecidableEq, Repr

/-- Projection of a post author by
`.populate('author', 'username firstName lastName profile.avatar')`. -/
structure PostAuthorView where
  username : String
  firstName : String
  lastName : String
  avatar : Option String
deriving DecidableEq, Repr

def projectCommentAuthor (u : UserDoc) : CommentAuthorView :=
  { username := u.username, avatar := u.avatar }

def projectPostAuthor (u : UserDoc) : PostAuthorView :=
  { username := u.username, firstName := u.firstName, lastName := u.lastName,
    avatar := u.avatar }

/-- Reply as returned inside a thread: the comment with its author resolved
(a dangling author reference resolves to `none`). -/
structure ReplyView where
  comment : CommentDoc
  author : Option CommentAuthorView
deriving DecidableEq, Repr

/-- Top-level comment as returned by `getPostWithComments`: the comment, its
resolved author, and its populated `replies` virtual. -/
structure ThreadView where
  comment : CommentDoc
  author : Option CommentAuthorView
  replies : List ReplyView
deriving DecidableEq, Repr

/-- Post with its author populated. -/
structure PostView where
  post : PostDoc
  author : Option PostAuthorView
deriving DecidableEq, Repr

/-- Embedding of `PostService.getPostWithComments` (src/services/PostService.ts).
The post is looked up by id; if absent, the result is `(none, [])`.  Top-level
comments are those with this post id, `isApproved: true` and
`parentComment: null`, sorted by `createdAt` descending, limited to 50.  The
`replies` virtual populates comments whose `parentComment` is the top-level
comment's id, filtered by `match: { isApproved: true }`, sorted by `createdAt`
ascending, limited to 50, each with its author resolved.  ObjectId well
formedness is not modelled (every `Nat` is a well-formed id), so the
`Invalid post ID` throw path is not reachable in the model. -/
def getPostWithComments (users : List UserDoc) (posts : List PostDoc)
    (comments : List CommentDoc) (postId : Nat) :
    Option PostView × List ThreadView :=
  match posts.find? (fun p => decide (p.id = postId)) with
  | none => (none, [])
  | some post =>
    let tops := (sortByKeyDesc (fun c => c.createdAt)
      (comments.filter (fun c =>
        decide (c.post = postId) && c.isApproved && decide (c.parentComment = none)))).take 50
    (some { post := post,
            author := (users.find? (fun u => decide (u.id = post.author))).map projectPostAuthor },
     tops.map (fun c =>
       { comment := c,
         author := (users.find? (fun u => decide (u.id = c.author))).map projectCommentAuthor,
         replies := ((sortByKeyAsc (fun r => r.createdAt)
             (comments.filter (fun r =>
               decide (r.parentComment = some c.id) && r.isApproved))).take 50).map
           (fun r =>
             { comment := r,
               author := (users.find? (fun u => decide (u.id = r.author))).map projectCommentAuthor }) }))

/-- Embedding of `SearchService.findSimilarPosts` (src/services/SearchService.ts).
If the source post id does not resolve, the result is `[]`.  Otherwise the
candidates are the published posts with a different id sharing at least one
category or at least one tag with the source (the `$in` membership tests),
sorted by `publishedAt` descending and limited.  The field projection and
author population of the query do not change which documents are returned and
are not modelled. -/
def findSimilarPosts (posts : List PostDoc) (postId : Nat) (limit : Nat := 5) :
    List PostDoc :=
  match posts.find? (fun p => decide (p.id = postId)) with
  | none => []
  | some post =>
    (sortByKeyDesc pubSortKey
      (posts.filter (fun p =>
        decide (p.id ≠ postId) &&
        decide (p.status = PostStatus.published) &&
        (p.categories.any (fun c => post.categories.contains c) ||
         p.tags.any (fun t => post.tags.contains t))))).take limit

/-- Case-insensitive substring test: model of the mongoose filter
`{ field: { $regex: name, $options: 'i' } }` for a pattern without regex
metacharacters (the specification describes the author criterion as a fuzzy
case-insensitive substring match). -/
def containsSub (needle : List Char) : List Char → Bool
  | [] => needle.isEmpty
  | c :: cs => needle.isPrefixOf (c :: cs) || containsSub needle cs

def iContains (haystack pattern : String) : Bool :=
  containsSub (pattern.toList.map jsLower) (haystack.toList.map jsLower)

/-- Embedding of `SearchService.findAuthorsByName`: the ids of users whose
firstName, lastName, or username matches the name case-insensitively. -/
def findAuthorsByName (users : List UserDoc) (name : String) : List Nat :=
  (users.filter (fun u =>
    iContains u.firstName name || iContains u.lastName name || iContains u.username name)).map
    (fun u => u.id)

/-- Search criteria for `searchPosts` (src/services/SearchService.ts).  The
free-text criterion and its relevance ordering are exercised by no claim and
are outside the embedded fragment. -/
structure SearchCriteria where
  categories : Option (List String) := none
  tags : Option (List String) := none
  author : Option String := none
  dateRange : Option (Nat × Nat) := none
  minViews : Option Nat := none
  hasImage : Option Bool := none
deriving Repr

/-- Error raised by a mongoose query. -/
inductive QueryError
  | castError
deriving DecidableEq, Repr

/-- Evaluation of the non-author filter conditions built by `searchPosts` on a
post.  `minViews` is guarded by JavaScript truthiness, so `0` adds no
condition; `hasImage` is an existence check; the `Option` field conflates a
BSON null with a missing field, which the exercised claims do not
distinguish. -/
def searchFilterEval (q : SearchCriteria) (p : PostDoc) : Bool :=
  decide (p.status = PostStatus.published) &&
  (match q.categories with
   | some cs => if cs.isEmpty then true else p.categories.any (fun c => cs.contains c)
   | none => true) &&
  (match q.tags with
   | some ts => if ts.isEmpty then true else p.tags.any (fun t => ts.contains t)
   | none => true) &&
  (match q.dateRange with
   | some (s, e) =>
     (match p.publishedAt with
      | some t => decide (s ≤ t) && decide (t ≤ e)
      | none => false)
   | none => true) &&
  (match q.minViews with
   | some m => if m = 0 then true else decide (m ≤ p.views)
   | none => true) &&
  (match q.hasImage with
   | some true => p.featuredImage.isSome
   | some false => p.featuredImage.isNone
   | none => true)

/-- Embedding of `SearchService.searchPosts`.  When an author name is present
(and nonempty, by JavaScript truthiness), the code resolves it to an id array
and assigns that array directly as the value of the scalar ObjectId path
`author` — without `$in`.  Mongoose casting rejects an array literal as an
equality value on a scalar ObjectId path, so the query raises a CastError,
which `searchPosts` rethrows.  Without an author criterion the result is the
filtered published posts sorted by `publishedAt` descending, limited to 50
(the `-content` projection does not change which documents are returned and is
not modelled). -/
def searchPosts (users : List UserDoc) (posts : List PostDoc) (q : SearchCriteria) :
    Except QueryError (List PostDoc) :=
  let authorCond : Option (List Nat) :=
    match q.author with
    | some name => if name = "" then none else some (findAuthorsByName users name)
    | none => none
  match authorCond with
  | some _ => .error QueryError.castError
  | none => .ok ((sortByKeyDesc pubSortKey (posts.filter (searchFilterEval q))).take 50)

/-- One row after the `$project` stage of `getPopularPostsThisWeek`. -/
structure PopularRow where
  id : Nat
  title : String
  slug : String
  author : Nat
  views : Nat
  likesCount : Nat
  publishedAt : Option Nat
  engagementScore : Nat
deriving DecidableEq, Repr

/-- Author identity attached by the `$lookup` pipeline of
`getPopularPostsThisWeek`. -/
structure PopularAuthor where
  username : String
  firstName : String
  lastName : String
deriving DecidableEq, Repr

/-- Final row of `getPopularPostsThisWeek` after `$lookup` + `$unwind`. -/
structure PopularPost where
  id : Nat
  title : String
  slug : String
  author : PopularAuthor
  views : Nat
  likesCount : Nat
  publishedAt : Option Nat
  engagementScore : Nat
deriving DecidableEq, Repr

/-- Seven days in milliseconds (the `weekAgo` computation of the source,
modelled as a fixed-length week). -/
def weekMs : Nat := 7 * 24 * 60 * 60 * 1000

/-- Embedding of `SearchService.getPopularPostsThisWeek` as an aggregation over
the post collection: `$match` on published posts with `publishedAt >= weekAgo`
(a missing `publishedAt` never matches `$gte`), `$addFields likesCount`,
`$project` with `engagementScore = views*1 + likesCount*5`, `$sort` descending
on the score, `$limit 10`, then `$lookup` of the author followed by `$unwind`,
which drops a row whose author id resolves to no user. -/
def getPopularPostsThisWeek (users : List UserDoc) (posts : List PostDoc) (now : Nat) :
    List PopularPost :=
  let weekAgo := now - weekMs
  let matched := posts.filter (fun p =>
    decide (p.status = PostStatus.published) &&
    (match p.publishedAt with
     | some t => decide (weekAgo ≤ t)
     | none => false))
  let rows : List PopularRow := matched.map (fun p =>
    { id := p.id, title := p.title, slug := p.slug, author := p.author,
      views := p.views, likesCount := p.likes.length, publishedAt := p.publishedAt,
      engagementScore := p.views * 1 + p.likes.length * 5 })
  let top := (sortByKeyDesc (fun r => r.engagementScore) rows).take 10
  top.filterMap (fun r =>
    (users.find? (fun u => decide (u.id = r.author))).map (fun u =>
      { id := r.id, title := r.title, slug := r.slug,
        author := { username := u.username, firstName := u.firstName, lastName := u.lastName },
        views := r.views, likesCount := r.likesCount, publishedAt := r.publishedAt,
        engagementScore := r.engagementScore }))

/-- Embedding of `BlogService.addComment` (src/services/BlogService.ts).  The
count of previously approved comments by this author (over the whole comment
collection, `countDocuments`) decides auto-approval: `isApproved` is
`previousApprovedComments > 5`.  The new document id and `createdAt` timestamp
are supplied by the storage layer. -/
def addComment (comments : List CommentDoc) (postId authorId : Nat) (content : String)
    (parentCommentId : Option Nat) (newId createdAt : Nat) :
    CommentDoc × List CommentDoc :=
  let previousApprovedComments :=
    (comments.filter (fun c => decide (c.author = authorId) && c.isApproved)).length
  let comment : CommentDoc :=
    { id := newId, post := postId, author := authorId, content := content,
      parentComment := parentCommentId,
      isApproved := decide (previousApprovedComments > 5),
      likes := 0, createdAt := createdAt }
  (comment, comments ++ [comment])

/-- JavaScript `String.prototype.trim` (ASCII whitespace model). -/
def trimStr (s : String) : String :=
  String.mk (trimBothEnds jsWs s.toList)

/-- ASCII model of `String.prototype.toLowerCase`. -/
def lowerStr (s : String) : String :=
  String.mk (s.toList.map jsLower)

/-- The schema setters `lowercase: true, trim: true` on the email path. -/
def normalizeEmail (s : String) : String :=
  lowerStr (trimStr s)

/-- Model of the email validator regex `^[^\s@]+@[^\s@]+\.[^\s@]+$`: one `@`,
a nonempty local part and a nonempty domain, no whitespace, and a dot inside
the domain with at least one character on each side. -/
def emailValid (s : String) : Bool :=
  let l := s.toList
  let locPart := l.takeWhile (fun c => c ≠ '@')
  match l.dropWhile (fun c => c ≠ '@') with
  | [] => false
  | _ :: domain =>
    !locPart.isEmpty && !domain.isEmpty &&
    locPart.all (fun c => !jsWs c) &&
    domain.all (fun c => !jsWs c && c ≠ '@') &&
    ((domain.drop 1).dropLast).contains '.'

/-- Model of the username schema constraints: 3 to 30 characters from
`[a-zA-Z0-9_]` (required is subsumed by the minimum length). -/
def usernameValid (s : String) : Bool :=
  decide (3 ≤ s.length) && decide (s.length ≤ 30) &&
  s.toList.all (fun c =>
    decide ('a' ≤ c ∧ c ≤ 'z') || decide ('A' ≤ c ∧ c ≤ 'Z') ||
    decide ('0' ≤ c ∧ c ≤ '9') || decide (c = '_'))

/-- Mongoose schema validation of a candidate user document (the validators of
src/models/User.ts on the paths present in `IUserInput`): email regex;
username length and pattern; password at least 8 characters; first and last
name required and at most 50 characters; integer age between 13 and 120 when
present.  Roles are valid by construction of the enum type. -/
def validateUser (u : UserDoc) : Bool :=
  emailValid u.email &&
  usernameValid u.username &&
  decide (8 ≤ u.password.length) &&
  decide (u.firstName ≠ "") && decide (u.firstName.length ≤ 50) &&
  decide (u.lastName ≠ "") && decide (u.lastName.length ≤ 50) &&
  (match u.age with
   | none => true
   | some a => decide (13 ≤ a) && decide (a ≤ 120))

/-- The input shape of `UserService.createUser` (src/types/user.types.ts,
`IUserInput`). -/
structure UserInput where
  email : String
  username : String
  firstName : String
  lastName : String
  password : String
  age : Option Int := none
  roles : List UserRole := [UserRole.user]
deriving Repr

/-- Failure modes of `createUser`: the conflict the service itself throws from
its pre-check, a mongoose schema validation failure on save, and the storage
duplicate-key rejection (E11000) from the unique indexes on email and
username. -/
inductive CreateUserError
  | conflict (message : String)
  | validationError
  | duplicateKey
deriving DecidableEq, Repr

/-- Embedding of the duplicate pre-check clause `{ userName: userData.username }`
in `UserService.createUser` (src/services/UserService.ts).  Stored user
documents have no `userName` field — the schema field is `username` — and a
MongoDB equality filter on an absent path with a string value matches no
document, so this clause is constantly false. -/
def userNameFieldMatches (_u : UserDoc) (_value : String) : Bool := false

/-- Embedding of `UserService.createUser` (src/services/UserService.ts).  The
service first runs `findOne` with `$or` over `{ email }` and the misspelled
`{ userName }` clause and throws its conflict error when a document is found;
otherwise it saves a new document: the schema setters normalize the email, the
schema validators run, and the unique indexes on email and username reject a
duplicate with a duplicate-key error.  On success the document is appended to
the collection. -/
def createUser (users : List UserDoc) (input : UserInput) (newId : Nat) :
    Except CreateUserError (UserDoc × List UserDoc) :=
  match users.find? (fun u =>
      decide (u.email = input.email) || userNameFieldMatches u input.username) with
  | some existingUser =>
    .error (.conflict
      (if existingUser.email = input.email then "Email already registered"
       else "Username already taken"))
  | none =>
    let candidate : UserDoc :=
      { id := newId,
        email := normalizeEmail input.email,
        username := input.username,
        password := input.password,
        firstName := trimStr input.firstName,
        lastName := trimStr input.lastName,
        age := input.age,
        roles := input.roles,
        avatar := none,
        isActive := true }
    if !validateUser candidate then .error .validationError
    else if users.any (fun u => decide (u.email = candidate.email)) then .error .duplicateKey
    else if users.any (fun u => decide (u.username = candidate.username)) then .error .duplicateKey
    else .ok (candidate, users ++ [candidate])

/-- Count of approved comments authored by `a`, as the claim about
auto-approval phrases it. -/
def countApprovedBy (comments : List CommentDoc) (a : Nat) : Nat :=
  comments.countP (fun c => decide (c.author = a ∧ c.isApproved = true))

/-- Concrete user fixture. -/
def exUser : UserDoc :=
  { id := 1, email := "a@x.com", username := "alice", password := "password1",
    firstName := "Alice", lastName := "Smith", age := none, roles := [.user],
    avatar := none, isActive := true }

/-- Concrete published post fixture (views 100, four likes). -/
def exPostA : PostDoc :=
  { id := 10, title := "A", slug := "a", content := "some content", excerpt := "e",
    author := 1, categories := ["Tech"], tags := ["db"], featuredImage := none,
    status := .published, publishedAt := some 1000, readTime := 1, views := 100,
    likes := [2, 3, 4, 5] }

/-- Concrete published post fixture (views 80, ten likes). -/
def exPostB : PostDoc :=
  { exPostA with
    id := 11, slug := "b", views := 80, likes := [2, 3, 4, 5, 6, 7, 8, 9, 10, 11],
    publishedAt := some 900 }

/-- Approved top-level comment fixture. -/
def exC1 : CommentDoc :=
  { id := 21, post := 10, author := 1, content := "top", parentComment := none,
    isApproved := true, likes := 0, createdAt := 10 }

/-- Unapproved reply fixture (must not appear in any thread). -/
def exC2 : CommentDoc :=
  { id := 22, post := 10, author := 1, content := "hidden", parentComment := some 21,
    isApproved := false, likes := 0, createdAt := 11 }

/-- Approved reply fixture. -/
def exC3 : CommentDoc :=
  { id := 23, post := 10, author := 1, content := "reply", parentComment := some 21,
    isApproved := true, likes := 0, createdAt := 12 }

/-- The thread view that `getPostWithComments` builds from the comment
fixtures. -/
def exThread : ThreadView :=
  { comment := exC1, author := some { username := "alice", avatar := none },
    replies := [{ comment := exC3, author := some { username := "alice", avatar := none } }] }

/-- The first popularity row computed from `exPostB` (score 80 + 10*5 = 130). -/
def exPopularB : PopularPost :=
  { id := 11, title := "A", slug := "b",
    author := { username := "alice", firstName := "Alice", lastName := "Smith" },
    views := 80, likesCount := 10, publishedAt := some 900, engagementScore := 130 }

/-- The second popularity row computed from `exPostA` (score 100 + 4*5 = 120). -/
def exPopularA : PopularPost :=
  { id := 10, title := "A", slug := "a",
    author := { username := "alice", firstName := "Alice", lastName := "Smith" },
    views := 100, likesCount := 4, publishedAt := some 1000, engagementScore := 120 }

/-- Draft-shaped fixture: status already set to published in memory,
`publishedAt` not yet stamped. -/
def exDraftPub : PostDoc :=
  { exPostA with publishedAt := none }

/-- One when the string starts with whitespace (contributing an empty leading
segment to the JavaScript split), zero otherwise. -/
def boundaryLead (l : List Char) : Nat :=
  match l.head? with
  | some c => if jsWs c then 1 else 0
  | none => 0

/-- One when the string ends with whitespace (contributing an empty trailing
segment to the JavaScript split), zero otherwise. -/
def boundaryTrail (l : List Char) : Nat :=
  match l.getLast? with
  | some c => if jsWs c then 1 else 0
  | none => 0

/-- Input reusing the stored username with an invalid email address. -/
def exDupUsernameBadEmail : UserInput :=
  { email := "notanemail", username := "alice", firstName := "Bob", lastName := "Jones",
    password := "longenough" }

/-- Valid input reusing the stored username with a fresh email. -/
def exDupUsernameValid : UserInput :=
  { email := "b@x.com", username := "alice", firstName := "Bob", lastName := "Jones",
    password := "longenough" }

/-- Valid input reusing the stored email with a fresh username. -/
def exDupEmail : UserInput :=
  { email := "a@x.com", username := "zed33", firstName := "Bob", lastName := "Jones",
    password := "longenough" }

/-- Valid input with fresh email and username. -/
def exFreshInput : UserInput :=
  { email := "b@x.com", username := "bob33", firstName := "Bob", lastName := "Jones",
    password := "longenough" }

/-- Characters that can occur in the output of the slug pipeline before the
final trim: lowercase letters, digits, and hyphens. -/
def isOutChar (c : Char) : Bool :=
  decide ('a' ≤ c ∧ c ≤ 'z') || decide ('0' ≤ c ∧ c ≤ '9') || decide (c = '-')

theorem mem_sortByKeyDesc {α : Type _} {key : α → Nat} {l : List α} {x : α} :
    x ∈ sortByKeyDesc key l ↔ x ∈ l :=
  (List.perm_insertionSort _ l).mem_iff

theorem mem_sortByKeyAsc {α : Type _} {key : α → Nat} {l : List α} {x : α} :
    x ∈ sortByKeyAsc key l ↔ x ∈ l :=
  (List.perm_insertionSort _ l).mem_iff

theorem sorted_sortByKeyDesc {α : Type _} (key : α → Nat) (l : List α) :
    (sortByKeyDesc key l).Pairwise (fun u v => key v ≤ key u) := by
  letI : IsTotal α (fun u v => key v ≤ key u) := ⟨fun a b => (le_total (key a) (key b)).symm⟩
  letI : IsTrans α (fun u v => key v ≤ key u) :=
    ⟨fun _ _ _ hab hbc => le_trans hbc hab⟩
  exact List.sorted_insertionSort _ l

/-- C10: the comment stored by `addComment` is approved exactly when its author
already has strictly more than 5 approved comments in the collection at call
time; otherwise it is stored unapproved; the new document is appended to the
collection. -/
theorem addComment_autoApproval (comments : List CommentDoc) (postId authorId : Nat)
    (content : String) (parentCommentId : Option Nat) (newId createdAt : Nat) :
    (((addComment comments postId authorId content parentCommentId newId createdAt).1.isApproved
        = true) ↔ 5 < countApprovedBy comments authorId) ∧
    (addComment comments postId authorId content parentCommentId newId createdAt).2 =
      comments ++ [(addComment comments postId authorId content parentCommentId newId createdAt).1] := by
  constructor
  · have hpred : ∀ c : CommentDoc,
        (decide (c.author = authorId) && c.isApproved) =
          decide (c.author = authorId ∧ c.isApproved = true) := by
      intro c
      by_cases h1 : c.author = authorId <;> cases h2 : c.isApproved <;> simp [h1, h2]
    simp only [addComment, countApprovedBy, List.countP_eq_length_filter]
    rw [show (fun c : CommentDoc => decide (c.author = authorId ∧ c.isApproved = true)) =
          (fun c : CommentDoc => decide (c.author = authorId) && c.isApproved) by
        funext c; rw [hpred]]
    simp
  · rfl

/-- C8: `findSimilarPosts` never returns the source post itself (the filter
carries `_id: { $ne: postId }`), and a nonexistent source post yields the
empty sequence rather than an error. -/
theorem findSimilarPosts_excludes_source (posts : List PostDoc) (postId : Nat) (limit : Nat) :
    (∀ p ∈ findSimilarPosts posts postId limit, p.id ≠ postId) ∧
    ((posts.find? (fun p => decide (p.id = postId))) = none →
      findSimilarPosts posts postId limit = []) := by
  constructor
  · intro p hp
    unfold findSimilarPosts at hp
    cases hfind : posts.find? (fun q => decide (q.id = postId)) with
    | none => rw [hfind] at hp; simp at hp
    | some post =>
      rw [hfind] at hp
      have hmem : p ∈ sortByKeyDesc pubSortKey (posts.filter (fun q =>
          decide (q.id ≠ postId) && decide (q.status = PostStatus.published) &&
          (q.categories.any (fun c => post.categories.contains c) ||
           q.tags.any (fun t => post.tags.contains t)))) := List.take_subset _ _ hp
      have hf := mem_sortByKeyDesc.mp hmem
      have := (List.mem_filter.mp hf).2
      simp only [Bool.and_assoc, Bool.and_eq_true, decide_eq_true_eq] at this
      exact this.1
  · intro h
    unfold findSimilarPosts
    rw [h]

/-- C4: the thread returned by `getPostWithComments` contains no unapproved
comment, neither among the top-level comments nor among the populated
replies, for every state of the comment collection. -/
theorem getPostWithComments_only_approved (users : List UserDoc) (posts : List PostDoc)
    (comments : List CommentDoc) (postId : Nat) :
    ∀ t ∈ (getPostWithComments users posts comments postId).2,
      t.comment.isApproved = true ∧ ∀ r ∈ t.replies, r.comment.isApproved = true := by
  intro t ht
  unfold getPostWithComments at ht
  cases hfind : posts.find? (fun p => decide (p.id = postId)) with
  | none => rw [hfind] at ht; simp at ht
  | some post =>
    rw [hfind] at ht
    simp only at ht
    rcases List.mem_map.mp ht with ⟨c, hc, rfl⟩
    have hcf : c ∈ comments.filter (fun c =>
        decide (c.post = postId) && c.isApproved && decide (c.parentComment = none)) :=
      mem_sortByKeyDesc.mp (List.take_subset _ _ hc)
    have hcp := (List.mem_filter.mp hcf).2
    simp only [Bool.and_assoc, Bool.and_eq_true] at hcp
    refine ⟨hcp.2.1, ?_⟩
    intro r hr
    simp only at hr
    rcases List.mem_map.mp hr with ⟨rc, hrc, rfl⟩
    have hrf : rc ∈ comments.filter (fun x =>
        decide (x.parentComment = some c.id) && x.isApproved) :=
      mem_sortByKeyAsc.mp (List.take_subset _ _ hrc)
    have hrp := (List.mem_filter.mp hrf).2
    simp only [Bool.and_eq_true] at hrp
    exact hrp.2

theorem findSimilarPosts_excludes_source_witness :
    exPostB.id ≠ 10 ∧ findSimilarPosts [exPostA, exPostB] 99 5 = [] :=
  ⟨(findSimilarPosts_excludes_source [exPostA, exPostB] 10 5).1 exPostB (by decide),
   (findSimilarPosts_excludes_source [exPostA, exPostB] 99 5).2 (by decide)⟩

theorem getPostWithComments_only_approved_witness :
    exThread.comment.isApproved = true ∧
      { comment := exC3,
        author := some { username := "alice", avatar := none } : ReplyView }.comment.isApproved
        = true :=
  ⟨(getPostWithComments_only_approved [exUser] [exPostA] [exC1, exC2, exC3] 10 exThread
      (by decide)).1,
   (getPostWithComments_only_approved [exUser] [exPostA] [exC1, exC2, exC3] 10 exThread
      (by decide)).2 _ (by decide)⟩

/-- C6: every row of `getPopularPostsThisWeek` comes from a published post
whose `publishedAt` lies in the last seven days, carries
`engagementScore = views*1 + likesCount*5` with `likesCount` the size of the
like set; at most 10 rows are returned, in descending engagement-score order;
and on the worked example the post with views 80 and 10 likes (score 130)
ranks above the post with views 100 and 4 likes (score 120). -/
theorem getPopularPostsThisWeek_spec (users : List UserDoc) (posts : List PostDoc) (now : Nat) :
    (∀ x ∈ getPopularPostsThisWeek users posts now,
       ∃ p, p ∈ posts ∧ p.status = PostStatus.published ∧
         (∃ t, p.publishedAt = some t ∧ now - weekMs ≤ t) ∧
         x.views = p.views ∧ x.likesCount = p.likes.length ∧
         x.engagementScore = p.views * 1 + p.likes.length * 5) ∧
    (getPopularPostsThisWeek users posts now).length ≤ 10 ∧
    (getPopularPostsThisWeek users posts now).Pairwise
      (fun x y => y.engagementScore ≤ x.engagementScore) ∧
    getPopularPostsThisWeek [exUser] [exPostA, exPostB] 2000 = [exPopularB, exPopularA] := by
  refine ⟨?_, ?_, ?_, by decide⟩
  · intro x hx
    simp only [getPopularPostsThisWeek] at hx
    rcases List.mem_filterMap.mp hx with ⟨r, hr, hfr⟩
    have hrows : r ∈ (posts.filter (fun p =>
        decide (p.status = PostStatus.published) &&
        (match p.publishedAt with
         | some t => decide (now - weekMs ≤ t)
         | none => false))).map (fun p =>
          ({ id := p.id, title := p.title, slug := p.slug, author := p.author,
             views := p.views, likesCount := p.likes.length, publishedAt := p.publishedAt,
             engagementScore := p.views * 1 + p.likes.length * 5 } : PopularRow)) :=
      mem_sortByKeyDesc.mp (List.take_subset _ _ hr)
    rcases List.mem_map.mp hrows with ⟨p, hpf, rfl⟩
    have hp := List.mem_filter.mp hpf
    have hcond := hp.2
    simp only [Bool.and_eq_true, decide_eq_true_eq] at hcond
    rcases hcond with ⟨hstat, hdate⟩
    have hdate2 : ∃ t, p.publishedAt = some t ∧ now - weekMs ≤ t := by
      cases hpub : p.publishedAt with
      | none => rw [hpub] at hdate; simp at hdate
      | some t =>
        rw [hpub] at hdate
        simp only [decide_eq_true_eq] at hdate
        exact ⟨t, rfl, hdate⟩
    rcases Option.map_eq_some'.mp hfr with ⟨u, _, rfl⟩
    exact ⟨p, hp.1, hstat, hdate2, rfl, rfl, rfl⟩
  · calc (getPopularPostsThisWeek users posts now).length
        ≤ _ := List.length_filterMap_le _ _
      _ ≤ 10 := List.length_take_le _ _
  · simp only [getPopularPostsThisWeek]
    refine List.Pairwise.filterMap
      (R := fun u v : PopularRow => v.engagementScore ≤ u.engagementScore) _ ?_ ?_
    · intro r r' hle x hx y hy
      rcases Option.map_eq_some'.mp hx with ⟨u, _, rfl⟩
      rcases Option.map_eq_some'.mp hy with ⟨u', _, rfl⟩
      exact hle
    · exact (sorted_sortByKeyDesc _ _).sublist (List.take_sublist _ _)

theorem getPopularPostsThisWeek_spec_witness :
    ∃ p, p ∈ [exPostA, exPostB] ∧ p.status = PostStatus.published ∧
      (∃ t, p.publishedAt = some t ∧ 2000 - weekMs ≤ t) ∧
      exPopularB.views = p.views ∧ exPopularB.likesCount = p.likes.length ∧
      exPopularB.engagementScore = p.views * 1 + p.likes.length * 5 :=
  (getPopularPostsThisWeek_spec [exUser] [exPostA, exPostB] 2000).1 exPopularB (by decide)

/-- C2 (counterexample): `exPostA` is already published with
`publishedAt = some 1000`, yet `publishPost` — a write path — overwrites
`publishedAt` with the current time `2000`. -/
theorem publishPost_overwrites_publishedAt :
    exPostA.status = PostStatus.published ∧ exPostA.publishedAt = some 1000 ∧
    (publishPost (some exPostA) 2000).map (fun p => p.publishedAt) = .ok (some 2000) ∧
    (2000 : Nat) ≠ 1000 :=
  ⟨rfl, rfl, rfl, by decide⟩

/-- C2 (amended): the save path behaves as claimed — the pre-save hook never
changes an already-set `publishedAt` and stamps the current time exactly on a
transition to published while `publishedAt` is unset — but `publishPost`
bypasses the hook with a direct update that unconditionally overwrites
`publishedAt` with the current time, also on an already-published post. -/
theorem publishedAt_write_paths (p : PostDoc) (cm sm : Bool) (now t : Nat) :
    (p.publishedAt = some t → (preSaveHook p cm sm now).publishedAt = some t) ∧
    (p.publishedAt = none → sm = true → p.status = PostStatus.published →
      (preSaveHook p cm sm now).publishedAt = some now) ∧
    (∀ q, publishPost (some p) now = .ok q → q.publishedAt = some now) := by
  refine ⟨?_, ?_, ?_⟩
  · intro h
    simp only [preSaveHook]
    split_ifs <;> simp_all
  · intro h hsm hst
    simp only [preSaveHook]
    split_ifs <;> simp_all
  · intro q hq
    simp only [publishPost, Except.ok.injEq] at hq
    rw [← hq]

theorem publishedAt_write_paths_witness :
    (preSaveHook exPostA false true 2000).publishedAt = some 1000 ∧
    (preSaveHook exDraftPub false true 2000).publishedAt = some 2000 ∧
    ({ exPostA with status := PostStatus.published, publishedAt := some 2000 } :
        PostDoc).publishedAt = some 2000 :=
  ⟨(publishedAt_write_paths exPostA false true 2000 1000).1 (by decide),
   (publishedAt_write_paths exDraftPub false true 2000 0).2.1 (by decide) rfl (by decide),
   (publishedAt_write_paths exPostA false true 2000 0).2.2 _ rfl⟩

theorem jsSplitWs_ne_nil (l : List Char) : jsSplitWs l ≠ [] := by
  induction l with
  | nil => simp [jsSplitWs]
  | cons a t ih =>
    cases t with
    | nil => simp only [jsSplitWs]; split_ifs <;> simp
    | cons b cs =>
      simp only [jsSplitWs]
      split_ifs <;> try simp [ih]
      cases h : jsSplitWs (b :: cs) with
      | nil => exact absurd h ih
      | cons s rest => simp

theorem jsSplitWs_length (l : List Char) :
    (jsSplitWs l).length =
      specWordCount l + boundaryLead l + boundaryTrail l + (if l = [] then 1 else 0) := by
  induction l with
  | nil => simp [jsSplitWs, specWordCount, boundaryLead, boundaryTrail]
  | cons a t ih =>
    cases t with
    | nil =>
      simp only [jsSplitWs, specWordCount, boundaryLead, boundaryTrail, List.head?_cons,
        List.getLast?_singleton]
      split_ifs <;> simp_all
    | cons b cs =>
      have htr : boundaryTrail (a :: b :: cs) = boundaryTrail (b :: cs) := by
        simp only [boundaryTrail]
        rw [List.getLast?_cons_cons]
      have hleadA : boundaryLead (a :: b :: cs) = if jsWs a = true then 1 else 0 := by
        simp [boundaryLead]
      have hleadB : boundaryLead (b :: cs) = if jsWs b = true then 1 else 0 := by
        simp [boundaryLead]
      have hne : ((b : Char) :: cs) ≠ [] := by simp
      simp only [jsSplitWs, specWordCount]
      by_cases ha : jsWs a = true
      · by_cases hb : jsWs b = true
        · rw [if_pos ha, if_pos hb, ih, hleadA, hleadB, htr]
          simp [ha, hb]
        · rw [if_pos ha, if_neg hb, List.length_cons, ih, hleadA, hleadB, htr]
          simp [ha, hb]
          omega
      · rw [if_neg ha]
        cases hsp : jsSplitWs (b :: cs) with
        | nil => exact absurd hsp (jsSplitWs_ne_nil _)
        | cons s rest =>
          have ihlen : (s :: rest).length =
              specWordCount (b :: cs) + boundaryLead (b :: cs) + boundaryTrail (b :: cs) +
                (if (b : Char) :: cs = [] then 1 else 0) := by rw [← hsp, ih]
          rw [hleadB, if_neg hne] at ihlen
          simp only [List.length_cons] at ihlen
          by_cases hb : jsWs b = true
          · rw [if_pos hb]
            rw [if_pos hb] at ihlen
            rw [List.length_cons, hleadA, htr]
            simp [ha]
            omega
          · rw [if_neg hb]
            rw [if_neg hb] at ihlen
            rw [List.length_cons, hleadA, htr]
            simp [ha]
            omega

theorem specWordCount_pos (l : List Char) (hne : l ≠ []) (hlead : boundaryLead l = 0) :
    1 ≤ specWordCount l := by
  induction l with
  | nil => exact absurd rfl hne
  | cons a t ih =>
    have ha : ¬jsWs a = true := by
      intro hw
      simp [boundaryLead, hw] at hlead
    cases t with
    | nil => simp [specWordCount, ha]
    | cons b cs =>
      simp only [specWordCount]
      rw [if_neg ha]
      by_cases hb : jsWs b = true
      · rw [if_pos hb]; omega
      · rw [if_neg hb]
        exact ih (by simp) (by simp [boundaryLead, hb])

/-- C7 (amended): for content with no leading and no trailing whitespace the
derived readTime matches the specification formula `max(1, ceil(wordCount/200))`;
each whitespace boundary adds one empty split segment and can inflate the
result (see the counterexample). -/
theorem calculateReadTime_formula (content : String)
    (hlead : boundaryLead content.toList = 0)
    (htrail : boundaryTrail content.toList = 0) :
    calculateReadTime content = specReadTime content := by
  by_cases hnil : content.toList = []
  · have hnil2 : content.data = [] := hnil
    simp [calculateReadTime, specReadTime, hnil2, jsSplitWs, specWordCount]
  · have hlen := jsSplitWs_length content.toList
    rw [hlead, htrail, if_neg hnil] at hlen
    have hwc : 1 ≤ specWordCount content.toList := specWordCount_pos _ hnil hlead
    have hr : 1 ≤ (specWordCount content.toList + 199) / 200 :=
      (Nat.one_le_div_iff (by norm_num)).mpr (by omega)
    simp only [calculateReadTime, specReadTime]
    rw [hlen]
    simp only [Nat.add_zero]
    rw [if_neg (by omega)]
    exact (Nat.max_eq_right hr).symm

set_option maxRecDepth 4000 in
/-- C7 (counterexample): a single leading space before 200 words makes the
code report readTime 2 while the specification formula gives 1. -/
theorem calculateReadTime_counterexample :
    calculateReadTime (" " ++ mkWords 200) = 2 ∧
    specReadTime (" " ++ mkWords 200) = 1 := by decide

set_option maxRecDepth 8000 in
theorem calculateReadTime_formula_witness :
    boundaryLead (mkWords 450).toList = 0 ∧ boundaryTrail (mkWords 450).toList = 0 ∧
    calculateReadTime (mkWords 450) = specReadTime (mkWords 450) ∧
    calculateReadTime (mkWords 450) = 3 :=
  ⟨by decide, by decide, calculateReadTime_formula _ (by decide) (by decide), by decide⟩

/-- C3: with an author criterion that matches no stored user,
`findAuthorsByName` resolves to the empty id set, but `searchPosts` does not
return an empty result: the resolved id array is assigned as an equality value
on the scalar `author` path (no `$in`), and the query fails with a CastError.
The same happens when the author name does match, and without the author
criterion the same store returns posts normally. -/
theorem searchPosts_author_castError :
    findAuthorsByName [exUser] "zzz" = [] ∧
    searchPosts [exUser] [exPostA] { author := some "zzz" } = .error QueryError.castError ∧
    findAuthorsByName [exUser] "ali" = [1] ∧
    searchPosts [exUser] [exPostA] { author := some "ali" } = .error QueryError.castError ∧
    searchPosts [exUser] [exPostA] {} = .ok [exPostA] :=
  ⟨rfl, rfl, rfl, rfl, rfl⟩

/-- C5: the duplicate pre-check of `createUser` queries the misspelled
`userName` field, so a duplicate username is never found by the service: its
`findOne` returns nothing for an input reusing the stored username, the
`Username already taken` branch is unreachable, and the failure surfaced is a
schema ValidationError when the input is otherwise invalid — not a uniqueness
conflict — or the storage duplicate-key rejection when it is valid.  A
duplicate email is caught by the pre-check, and a fresh valid input is
stored. -/
theorem createUser_userName_typo :
    ([exUser].find? (fun u =>
        decide (u.email = exDupUsernameValid.email) ||
        userNameFieldMatches u exDupUsernameValid.username)) = none ∧
    createUser [exUser] exDupUsernameBadEmail 2 = .error CreateUserError.validationError ∧
    createUser [exUser] exDupUsernameValid 2 = .error CreateUserError.duplicateKey ∧
    createUser [exUser] exDupEmail 2 =
      .error (CreateUserError.conflict "Email already registered") ∧
    (createUser [exUser] exFreshInput 2).isOk = true :=
  ⟨rfl, rfl, rfl, rfl, rfl⟩

theorem isOutChar_not_ws {c : Char} (h : isOutChar c = true) : jsWs c = false := by
  cases hw : jsWs c with
  | false => rfl
  | true =>
    exfalso
    simp only [jsWs, Bool.or_eq_true, decide_eq_true_eq] at hw
    rcases hw with ((((h1 | h1) | h1) | h1) | h1) | h1 <;> subst h1 <;>
      exact absurd h (by decide)

theorem isOutChar_not_upper {c : Char} (h : isOutChar c = true) :
    ¬('A' ≤ c ∧ c ≤ 'Z') := by
  rintro ⟨hA, hZ⟩
  simp only [isOutChar, Bool.or_eq_true, decide_eq_true_eq] at h
  rcases h with (⟨h1, _⟩ | ⟨_, h4⟩) | h5
  · exact absurd (le_trans h1 hZ) (by decide)
  · exact absurd (le_trans hA h4) (by decide)
  · subst h5; exact absurd hA (by decide)

theorem jsLower_eq_self {c : Char} (h : isOutChar c = true) : jsLower c = c := by
  simp only [jsLower]
  rw [if_neg (isOutChar_not_upper h)]

theorem isOutChar_slug {c : Char} (h : isOutChar c = true) : isSlugChar c = true := by
  simp only [isOutChar, Bool.or_eq_true, decide_eq_true_eq] at h
  simp only [isSlugChar, Bool.or_eq_true, decide_eq_true_eq]
  tauto

theorem isSlugChar_not_ws_out {c : Char} (hs : isSlugChar c = true) (hw : jsWs c = false) :
    isOutChar c = true := by
  simp only [isSlugChar, Bool.or_eq_true, decide_eq_true_eq] at hs
  simp only [isOutChar, Bool.or_eq_true, decide_eq_true_eq]
  rcases hs with ((h1 | h1) | h1) | h1
  · exact Or.inl (Or.inl h1)
  · exact Or.inl (Or.inr h1)
  · rw [h1] at hw; simp at hw
  · exact Or.inr h1

theorem mem_collapseWs {c : Char} :
    ∀ {l : List Char}, c ∈ collapseWs l → c = '-' ∨ (c ∈ l ∧ jsWs c = false) := by
  intro l
  induction l with
  | nil => intro h; simp [collapseWs] at h
  | cons a t ih =>
    cases t with
    | nil =>
      intro h
      simp only [collapseWs] at h
      by_cases ha : jsWs a = true
      · rw [if_pos ha] at h
        simp at h
        exact Or.inl h
      · rw [if_neg ha] at h
        simp at h
        subst h
        exact Or.inr ⟨List.mem_singleton_self _, by simpa using ha⟩
    | cons b cs =>
      intro h
      simp only [collapseWs] at h
      by_cases ha : jsWs a = true
      · rw [if_pos ha] at h
        by_cases hb : jsWs b = true
        · rw [if_pos hb] at h
          rcases ih h with h1 | ⟨h2, h3⟩
          · exact Or.inl h1
          · exact Or.inr ⟨List.mem_cons_of_mem _ h2, h3⟩
        · rw [if_neg hb] at h
          rcases List.mem_cons.mp h with h1 | h1
          · exact Or.inl h1
          · rcases ih h1 with h2 | ⟨h3, h4⟩
            · exact Or.inl h2
            · exact Or.inr ⟨List.mem_cons_of_mem _ h3, h4⟩
      · rw [if_neg ha] at h
        rcases List.mem_cons.mp h with h1 | h1
        · subst h1
          exact Or.inr ⟨List.mem_cons_self _ _, by simpa using ha⟩
        · rcases ih h1 with h2 | ⟨h3, h4⟩
          · exact Or.inl h2
          · exact Or.inr ⟨List.mem_cons_of_mem _ h3, h4⟩

theorem mem_collapseHy {c : Char} :
    ∀ {l : List Char}, c ∈ collapseHy l → c ∈ l := by
  intro l
  induction l with
  | nil => intro h; simp [collapseHy] at h
  | cons a t ih =>
    cases t with
    | nil => intro h; simpa [collapseHy] using h
    | cons b cs =>
      intro h
      simp only [collapseHy] at h
      by_cases hab : a = '-' ∧ b = '-'
      · rw [if_pos hab] at h
        exact List.mem_cons_of_mem _ (ih h)
      · rw [if_neg hab] at h
        rcases List.mem_cons.mp h with h1 | h1
        · exact h1 ▸ List.mem_cons_self _ _
        · exact List.mem_cons_of_mem _ (ih h1)

theorem head?_collapseHy : ∀ (l : List Char), (collapseHy l).head? = l.head? := by
  intro l
  induction l with
  | nil => rfl
  | cons a t ih =>
    cases t with
    | nil => rfl
    | cons b cs =>
      simp only [collapseHy]
      by_cases hab : a = '-' ∧ b = '-'
      · rw [if_pos hab, ih]
        rw [List.head?_cons, List.head?_cons, hab.1, hab.2]
      · rw [if_neg hab]
        simp

theorem chain_collapseHy :
    ∀ (l : List Char), (collapseHy l).Chain' (fun x y => ¬(x = '-' ∧ y = '-')) := by
  intro l
  induction l with
  | nil => simp [collapseHy]
  | cons a t ih =>
    cases t with
    | nil => simp [collapseHy]
    | cons b cs =>
      simp only [collapseHy]
      by_cases hab : a = '-' ∧ b = '-'
      · rw [if_pos hab]; exact ih
      · rw [if_neg hab]
        rw [List.chain'_cons']
        refine ⟨?_, ih⟩
        intro y hy
        rw [head?_collapseHy, List.head?_cons, Option.mem_def, Option.some.injEq] at hy
        subst hy
        exact hab

theorem collapseHy_eq_self :
    ∀ {l : List Char}, l.Chain' (fun x y => ¬(x = '-' ∧ y = '-')) → collapseHy l = l := by
  intro l
  induction l with
  | nil => intro _; rfl
  | cons a t ih =>
    cases t with
    | nil => intro _; rfl
    | cons b cs =>
      intro h
      rw [List.chain'_cons] at h
      simp only [collapseHy]
      rw [if_neg h.1, ih h.2]

theorem collapseWs_eq_self :
    ∀ {l : List Char}, (∀ c ∈ l, jsWs c = false) → collapseWs l = l := by
  intro l
  induction l with
  | nil => intro _; rfl
  | cons a t ih =>
    cases t with
    | nil =>
      intro h
      have := h a (List.mem_cons_self _ _)
      simp only [collapseWs]
      rw [if_neg (by simp [this])]
    | cons b cs =>
      intro h
      have ha := h a (List.mem_cons_self _ _)
      simp only [collapseWs]
      rw [if_neg (by simp [ha]), ih (fun c hc => h c (List.mem_cons_of_mem _ hc))]

theorem trimBothEnds_eq_self {l : List Char} (h : ∀ c ∈ l, jsWs c = false) :
    trimBothEnds jsWs l = l := by
  have hdrop : ∀ (m : List Char), (∀ c ∈ m, jsWs c = false) → m.dropWhile jsWs = m := by
    intro m hm
    cases m with
    | nil => rfl
    | cons a t => rw [List.dropWhile_cons_of_neg (by simp [hm a (List.mem_cons_self _ _)])]
  simp only [trimBothEnds, trimEnd]
  rw [hdrop l h, hdrop l.reverse (fun c hc => h c (List.mem_reverse.mp hc)), List.reverse_reverse]

theorem toList_mk (l : List Char) : (String.mk l).toList = l := rfl

theorem outChars_slugPipeline (l : List Char) :
    ∀ c ∈ collapseHy (collapseWs ((l.map jsLower).filter isSlugChar)), isOutChar c = true := by
  intro c hc
  have h1 := mem_collapseHy hc
  rcases mem_collapseWs h1 with h2 | ⟨h3, h4⟩
  · subst h2; decide
  · exact isSlugChar_not_ws_out (List.mem_filter.mp h3).2 h4

theorem map_jsLower_eq_self {l : List Char} (h : ∀ c ∈ l, isOutChar c = true) :
    l.map jsLower = l := by
  induction l with
  | nil => rfl
  | cons a t ih =>
    rw [List.map_cons, jsLower_eq_self (h a (List.mem_cons_self _ _)),
      ih (fun c hc => h c (List.mem_cons_of_mem _ hc))]

theorem slugPipeline_fixed (l : List Char) :
    collapseHy (collapseWs
      (((collapseHy (collapseWs ((l.map jsLower).filter isSlugChar))).map jsLower).filter
        isSlugChar)) =
    collapseHy (collapseWs ((l.map jsLower).filter isSlugChar)) := by
  have hchars := outChars_slugPipeline l
  rw [map_jsLower_eq_self hchars,
    List.filter_eq_self.mpr (fun c hc => isOutChar_slug (hchars c hc)),
    collapseWs_eq_self (fun c hc => isOutChar_not_ws (hchars c hc)),
    collapseHy_eq_self (chain_collapseHy _)]

theorem generateSlug_toList (s : String) :
    (generateSlug s).toList =
      collapseHy (collapseWs ((s.toList.map jsLower).filter isSlugChar)) := by
  show trimBothEnds jsWs (collapseHy (collapseWs ((s.toList.map jsLower).filter isSlugChar))) = _
  exact trimBothEnds_eq_self (fun c hc => isOutChar_not_ws (outChars_slugPipeline _ c hc))

/-- C9: the slug generator of the Post schema is idempotent — applying it to
its own output changes nothing, because the output consists only of lowercase
letters, digits and hyphens with no adjacent hyphen pair and no whitespace, on
which every stage of the pipeline is the identity. -/
theorem generateSlug_idempotent (s : String) :
    generateSlug (generateSlug s) = generateSlug s := by
  have hws : ∀ c ∈ collapseHy (collapseWs ((s.toList.map jsLower).filter isSlugChar)),
      jsWs c = false :=
    fun c hc => isOutChar_not_ws (outChars_slugPipeline _ c hc)
  unfold generateSlug
  simp only [toList_mk]
  rw [trimBothEnds_eq_self hws, slugPipeline_fixed s.toList, trimBothEnds_eq_self hws]

/-- C1 (amended): `generateSlug` performs the reference pipeline except that
its final `.trim()` removes only whitespace — vacuous at that point, since all
whitespace has become hyphens — so the reference result is exactly the code
result with leading and trailing hyphens additionally trimmed; on the example
title both slug generators produce `learn-mongodb-in-2025` as stated. -/
theorem generateSlug_vs_slugifySpec :
    (∀ title : String, slugifySpec title =
        String.mk (trimBothEnds isHyOrWs (generateSlug title).toList)) ∧
    generateSlug "Learn MongoDB in 2025!!" = "learn-mongodb-in-2025" ∧
    generateSlugFromTitle "Learn MongoDB in 2025!!" = "learn-mongodb-in-2025" := by
  refine ⟨?_, by decide, by decide⟩
  intro title
  rw [generateSlug_toList title]
  rfl

/-- C1 (counterexample): on the title `-hello` both slug generators keep the
leading hyphen while the reference definition trims it, so the generator does
not equal the reference definition. -/
theorem generateSlug_counterexample :
    generateSlug "-hello" = "-hello" ∧ generateSlugFromTitle "-hello" = "-hello" ∧
    slugifySpec "-hello" = "hello" ∧ ("-hello" : String) ≠ "hello" := by decide
